import Mathlib

/-
  Shallow embedding of the JTAG probe in src/src/main.rs (struct FtdiProbe).

  Conventions of the embedding:
  * machine integers (u8/u16/u32/usize) are Nat; overflow/underflow and
    shift-amount overflow, which panic in a debug build of the Rust code,
    are modelled as the explicit error value Err.panic;
  * the USB transport is modelled by its observable data: functions that
    write engine commands return the written byte list, and capturing
    functions take the byte list the transport delivers within the read
    timeout as an explicit argument (read_response models the timed read
    loop of main.rs lines 66-87 on that list);
  * bit buffers (bitvec BitVec<Lsb0, u8>) are List Bool, LSB-first within
    each byte.
-/

namespace Ftdi

/-- The error kinds raised by the probe code: io TimedOut, io InvalidData,
io NotFound, io Other "target is not selected", io InvalidInput, and a
debug-build arithmetic/assertion failure. -/
inductive Err where
  | timedOut
  | invalidData
  | notFound
  | notSelected
  | invalidInput
  | panic
deriving DecidableEq

/-- struct JtagChainItem (main.rs lines 9-13). -/
structure JtagChainItem where
  idcode : Nat
  irlen : Nat
deriving DecidableEq

/-- struct ChainParams (main.rs lines 15-22). -/
structure ChainParams where
  irpre : Nat
  irpost : Nat
  drpre : Nat
  drpost : Nat
  irlen : Nat
deriving DecidableEq

/-- The probe state relevant to the protocol logic (main.rs lines 24-28):
the chain parameters selected so far and the configured idle cycles. -/
structure Probe where
  chain_params : Option ChainParams
  idle_cycles : Nat
deriving DecidableEq

/-- read_response (main.rs lines 66-87): loop reading until size bytes have
arrived or the timeout elapses; avail is the byte list the transport
delivers within the timeout. Fewer bytes than size: TimedOut; more bytes
than size: InvalidData. -/
def read_response (avail : List Nat) (size : Nat) : Except Err (List Nat) :=
  if avail.length < size then .error .timedOut
  else if size < avail.length then .error .invalidData
  else .ok avail

/-- Loop body of shift_tms (main.rs lines 95-104); fuel is an upper bound on
the iteration count (bits itself suffices, each iteration consumes 8). -/
def shift_tms_go (fuel : Nat) (data : List Nat) (bits : Nat) : List Nat :=
  match fuel with
  | 0 => []
  | fuel + 1 =>
    if bits = 0 then []
    else if 8 ≤ bits then
      [0x4b, 0x07, data.headD 0] ++ shift_tms_go fuel data.tail (bits - 8)
    else
      [0x4b, bits - 1, data.headD 0]

def shift_tms_loop (data : List Nat) (bits : Nat) : List Nat :=
  shift_tms_go bits data bits

/-- shift_tms (main.rs lines 89-106): emits one 0x4b command (clock TMS,
no capture) per group of up to 8 bits; asserts bits > 0 and that data holds
at least ceil(bits/8) bytes. -/
def shift_tms (data : List Nat) (bits : Nat) : Except Err (List Nat) :=
  if bits = 0 then .error .panic
  else if data.length < (bits + 7) / 8 then .error .panic
  else .ok (shift_tms_loop data bits)

/-- shift_tdi (main.rs lines 108-141): bulk 0x19 command for the first
(bits-1)/8 bytes (asserting that count ≤ 65536), then a 0x1b bit command
for all remaining bits but the last, then the final bit via a 0x4b TMS+TDI
command whose TMS line is 1. -/
def shift_tdi (data : List Nat) (bits : Nat) : Except Err (List Nat) :=
  if bits = 0 then .error .panic
  else if data.length < (bits + 7) / 8 then .error .panic
  else
    let full_bytes := (bits - 1) / 8
    if 65536 < full_bytes then .error .panic
    else
      let bulk :=
        if 0 < full_bytes then
          0x19 :: ((full_bytes - 1) % 256) :: ((full_bytes - 1) / 256 % 256) :: data.take full_bytes
        else []
      let rem := bits - full_bytes * 8
      let byte := (data.drop full_bytes).headD 0
      let bitcmd := if 1 < rem then [0x1b, rem - 2, byte] else []
      let last_bit := (byte >>> (rem - 1)) &&& 1
      let tms_byte := 0x01 ||| (last_bit <<< 7)
      .ok (bulk ++ bitcmd ++ [0x4b, 0x00, tms_byte])

/-- Command bytes written by tranfer_tdi (main.rs lines 143-173): same
structure as shift_tdi but with the capturing opcodes 0x39, 0x3b, 0x6b. -/
def tranfer_tdi_cmds (data : List Nat) (bits : Nat) : Except Err (List Nat) :=
  if bits = 0 then .error .panic
  else if data.length < (bits + 7) / 8 then .error .panic
  else
    let full_bytes := (bits - 1) / 8
    if 65536 < full_bytes then .error .panic
    else
      let bulk :=
        if 0 < full_bytes then
          0x39 :: ((full_bytes - 1) % 256) :: ((full_bytes - 1) / 256 % 256) :: data.take full_bytes
        else []
      let rem := bits - full_bytes * 8
      let byte := (data.drop full_bytes).headD 0
      let bitcmd := if 1 < rem then [0x3b, rem - 2, byte] else []
      let last_bit := (byte >>> (rem - 1)) &&& 1
      let tms_byte := 0x01 ||| (last_bit <<< 7)
      .ok (bulk ++ bitcmd ++ [0x6b, 0x00, tms_byte])

/-- Number of reply bytes tranfer_tdi waits for (main.rs lines 175-178):
full_bytes + 1, plus 1 more when more than one bit remains after the bulk
segment (the 0x3b bit command and the 0x6b TMS command each return a byte). -/
def tranfer_tdi_expect (bits : Nat) : Nat :=
  let full_bytes := (bits - 1) / 8
  let rem := bits - full_bytes * 8
  full_bytes + 1 + (if 1 < rem then 1 else 0)

/-- Reply post-processing of tranfer_tdi (main.rs lines 182-188): merge the
last one or two captured bytes into the final output byte and truncate to
full_bytes + 1 bytes. -/
def tranfer_tdi_decode (reply : List Nat) (bits : Nat) : List Nat :=
  let full_bytes := (bits - 1) / 8
  let rem := bits - full_bytes * 8
  let last := reply.getLastD 0 &&& 1
  let last_byte :=
    if 1 < rem then reply.getD (reply.length - 2) 0 ||| (last <<< (rem - 1))
    else last
  reply.take full_bytes ++ [last_byte]

/-- reset (main.rs lines 194-196): shift_tms of the five bytes ff ff ff ff 7f
over 40 clocks. -/
def reset_tms_data : List Nat := [0xff, 0xff, 0xff, 0xff, 0x7f]

def reset : Except Err (List Nat) := shift_tms reset_tms_data 40

/-- TMS level on the i-th clock of a shift_tms of the given data bytes:
each 0x4b command clocks its data byte LSB-first. -/
def tms_bit (data : List Nat) (i : Nat) : Bool :=
  (data.getD (i / 8) 0).testBit (i % 8)

/-- u32::trailing_zeros, computed by scanning the 32 bit positions. -/
def tz32Aux : Nat → Nat → Nat
  | 0, _ => 0
  | fuel + 1, x => if x % 2 = 1 then 0 else 1 + tz32Aux fuel (x / 2)

def trailingZeros32 (x : Nat) : Nat := tz32Aux 32 x

/-- u32::from_le_bytes. -/
def u32_from_le (b0 b1 b2 b3 : Nat) : Nat :=
  b0 + 256 * b1 + 65536 * b2 + 16777216 * b3

/-- u32::to_le_bytes. -/
def u32_le_bytes (x : Nat) : List Nat :=
  [x % 256, x / 256 % 256, x / 65536 % 256, x / 16777216 % 256]

/-- The max_device_count constant of scan (main.rs line 233). -/
def max_device_count : Nat := 8

/-- The all-ones DR payload of the IDCODE pass (main.rs line 237). -/
def scan_dr_cmd : List Nat := List.replicate (max_device_count * 4) 0xff

/-- The i-th little-endian 32-bit word of the captured DR reply
(main.rs line 241). The reply of the 256-bit transfer_dr is always exactly
32 bytes, so the Rust slice-unwrap cannot fail there; out-of-range
accesses default to 0 here. -/
def idcodeAt (r : List Nat) (i : Nat) : Nat :=
  u32_from_le (r.getD (4 * i) 0) (r.getD (4 * i + 1) 0) (r.getD (4 * i + 2) 0)
    (r.getD (4 * i + 3) 0)

/-- IDCODE pass loop of scan (main.rs lines 240-249): one JtagChainItem per
word, stopping (exclusive) at the first 0xffffffff word; fuel counts the
remaining iterations of the for loop over 0..max_device_count. -/
def scanIdcodesFrom (r : List Nat) : Nat → Nat → List JtagChainItem
  | _, 0 => []
  | i, fuel + 1 =>
    let idcode := idcodeAt r i
    if idcode ≠ 0xffffffff then ⟨idcode, 0⟩ :: scanIdcodesFrom r (i + 1) fuel
    else []

def scanIdcodes (r : List Nat) : List JtagChainItem :=
  scanIdcodesFrom r 0 max_device_count

/-- One accumulator refill of the IR-length pass (main.rs lines 258-263):
when fewer than 8 unconsumed bits remain and a captured byte is left, pull
it into the accumulator. Returns (rest of r, ir, irbits). -/
def pullByte (r : List Nat) (ir irbits : Nat) : List Nat × Nat × Nat :=
  match r with
  | b :: rest => if irbits < 8 then (rest, ir ||| (b <<< irbits), irbits + 8) else (r, ir, irbits)
  | [] => ([], ir, irbits)

/-- Result of one per-TAP step of the IR-length pass. -/
inductive IrStep where
  | err : Err → IrStep
  | next : Nat → Nat → Nat → List Nat → IrStep
deriving DecidableEq

/-- One per-TAP step of the IR-length pass (main.rs lines 258-277): refill
the accumulator, require its low two bits to be 0b01, clear bit 0, take the
trailing-zero count as this TAP irlen, shift the accumulator right by irlen
and reduce the bit counter by irlen. The u32 right shift by irlen and the
u32 subtraction irbits - irlen panic in a debug build when irlen = 32
(accumulator equal to 1) resp. irlen > irbits. -/
def scanIrStep (r : List Nat) (ir irbits : Nat) : IrStep :=
  let s := pullByte r ir irbits
  let ir1 := s.2.1
  if ir1 &&& 3 = 1 then
    let ir2 := ir1 &&& 0xfffffffe
    let irlen := trailingZeros32 ir2
    if 32 ≤ irlen then .err .panic
    else if s.2.2 < irlen then .err .panic
    else .next irlen (ir2 >>> irlen) (s.2.2 - irlen) s.1
  else .err .invalidData

/-- IR-length pass loop of scan (main.rs lines 255-278), iterating
scanIrStep over the discovered TAPs and filling in their irlen fields. -/
def scanIrLoop : List JtagChainItem → List Nat → Nat → Nat → Except Err (List JtagChainItem)
  | [], _, _, _ => .ok []
  | t :: ts, r, ir, irbits =>
    match scanIrStep r ir irbits with
    | .err e => .error e
    | .next irlen ir1 irbits1 r1 =>
      match scanIrLoop ts r1 ir1 irbits1 with
      | .ok rest => .ok (⟨t.idcode, irlen⟩ :: rest)
      | .error e => .error e

/-- scan (main.rs lines 232-281), as a function of the decoded reply bytes
of the 256-bit transfer_dr (dr_reply) and of the 64-bit transfer_ir
(ir_reply). -/
def scan (dr_reply ir_reply : List Nat) : Except Err (List JtagChainItem) :=
  scanIrLoop (scanIdcodes dr_reply) ir_reply 0 0

/-- Accumulation loop of select_target (main.rs lines 286-305): the fields
of the matching TAP replace irlen, earlier TAPs accumulate into irpre/drpre,
TAPs after a match accumulate into irpost/drpost. -/
def selectLoop : List JtagChainItem → Nat → ChainParams → Bool → ChainParams × Bool
  | [], _, params, found => (params, found)
  | tap :: taps, idcode, params, found =>
    if tap.idcode = idcode then
      selectLoop taps idcode { params with irlen := tap.irlen } true
    else if found then
      selectLoop taps idcode
        { params with irpost := params.irpost + tap.irlen, drpost := params.drpost + 1 } found
    else
      selectLoop taps idcode
        { params with irpre := params.irpre + tap.irlen, drpre := params.drpre + 1 } found

/-- select_target (main.rs lines 283-314) on an already scanned chain. -/
def select_target (taps : List JtagChainItem) (idcode : Nat) : Except Err ChainParams :=
  match selectLoop taps idcode ⟨0, 0, 0, 0, 0⟩ false with
  | (params, true) => .ok params
  | (_, false) => .error .notFound

/-- select_target at the probe-state level: on success the whole stored
ChainParams value is replaced (main.rs line 309). -/
def select_target_probe (probe : Probe) (taps : List JtagChainItem) (idcode : Nat) :
    Except Err Probe :=
  match select_target taps idcode with
  | .ok params => .ok { probe with chain_params := some params }
  | .error e => .error e

/-- Sum of the IR lengths of a list of TAPs. -/
def sumIr (taps : List JtagChainItem) : Nat := (taps.map (fun t => t.irlen)).sum

/-- The eight bits of one byte, LSB first (BitVec<Lsb0, u8> element order). -/
def byteToBits (b : Nat) : List Bool :=
  [b.testBit 0, b.testBit 1, b.testBit 2, b.testBit 3,
   b.testBit 4, b.testBit 5, b.testBit 6, b.testBit 7]

/-- BitVec::<Lsb0, u8>::from_slice / from_vec: the bit sequence of a byte
list, LSB first within each byte. -/
def bytesToBits (bs : List Nat) : List Bool := (bs.map byteToBits).flatten

/-- The byte whose low bits are the given bit list (missing high bits 0). -/
def bitsToByte (l : List Bool) : Nat :=
  l.foldr (fun b acc => (cond b 1 0) + 2 * acc) 0

/-- BitVec::into_vec: pack a bit sequence into bytes, LSB first, the unused
high bits of a trailing byte being 0. -/
def bitsToBytes : List Bool → List Nat
  | b0 :: b1 :: b2 :: b3 :: b4 :: b5 :: b6 :: b7 :: rest =>
    bitsToByte [b0, b1, b2, b3, b4, b5, b6, b7] :: bitsToBytes rest
  | [] => []
  | l => [bitsToByte l]

/-- The full IR value built by target_transfer (main.rs lines 344-346):
low irpre bits 1, then the address, then irpost bits 1. -/
def build_ir (p : ChainParams) (address : Nat) : Nat :=
  ((1 <<< p.irpre) - 1) ||| (address <<< p.irpre) |||
    (((1 <<< p.irpost) - 1) <<< (p.irpre + p.irlen))

/-- The DR request bytes built by target_transfer (main.rs lines 350-362):
for a write, drpre zero bits, then the data bits truncated to len_bits,
then drpost zero bits, packed into bytes; for a read, ceil(drbits/8) zero
bytes. -/
def target_dr_request (p : ChainParams) (data : Option (List Nat)) (len_bits : Nat) :
    List Nat :=
  match data with
  | some d =>
    bitsToBytes (List.replicate p.drpre false ++ (bytesToBits d).take len_bits ++
      List.replicate p.drpost false)
  | none => List.replicate ((p.drpre + len_bits + p.drpost + 7) / 8) 0

/-- The reply decoding of target_transfer (main.rs lines 366-371): drop the
low drpre bits, keep the next len_bits bits, repack into bytes. -/
def target_decode (p : ChainParams) (reply : List Nat) (len_bits : Nat) : List Nat :=
  bitsToBytes (((bytesToBits reply).drop p.drpre).take len_bits)

/-- shift_ir (main.rs lines 209-214): TMS 0011 over 4 clocks, the TDI
shift, TMS 01 over 2 clocks. Returns the written command bytes; a failing
assertion inside shift_tdi still leaves the first TMS command written. -/
def shift_ir_run (data : List Nat) (bits : Nat) : Except Err Unit × List Nat :=
  match shift_tms [0x03] 4 with
  | .error e => (.error e, [])
  | .ok w1 =>
    match shift_tdi data bits with
    | .error e => (.error e, w1)
    | .ok w2 =>
      match shift_tms [0x01] 2 with
      | .error e => (.error e, w1 ++ w2)
      | .ok w3 => (.ok (), w1 ++ w2 ++ w3)

/-- transfer_dr (main.rs lines 225-230) with the transported reply made
explicit: TMS 001 over 3 clocks, the capturing TDI transfer reading
tranfer_tdi_expect bytes, TMS 01 over 2 clocks. Returns the decoded reply
and the written command bytes. -/
def transfer_dr_run (data : List Nat) (bits : Nat) (avail : List Nat) :
    Except Err (List Nat) × List Nat :=
  match shift_tms [0x01] 3 with
  | .error e => (.error e, [])
  | .ok w1 =>
    match tranfer_tdi_cmds data bits with
    | .error e => (.error e, w1)
    | .ok w2 =>
      match read_response avail (tranfer_tdi_expect bits) with
      | .error e => (.error e, w1 ++ w2)
      | .ok reply =>
        match shift_tms [0x01] 2 with
        | .error e => (.error e, w1 ++ w2)
        | .ok w3 => (.ok (tranfer_tdi_decode reply bits), w1 ++ w2 ++ w3)

/-- idle (main.rs lines 199-206): cycles TMS clocks at level 0; a no-op
for cycles = 0. Returns the written command bytes. -/
def idle_run (cycles : Nat) : Except Err (List Nat) :=
  if cycles = 0 then .ok []
  else shift_tms (List.replicate ((cycles + 7) / 8) 0) cycles

/-- target_transfer (main.rs lines 326-377), with the bytes the transport
delivers for the DR capture (avail) made explicit. Returns the result and
the engine command bytes written. The guards mirror, in order: the missing
chain parameters, the u32 shift building max_address (irlen ≥ 32 panics in
a debug build), the address range check, the assertion irbits ≤ 32, and
the u32 shift-amount overflows in the IR value construction
(irpre + irlen = 32 or irpost = 32 shift by 32 and panic in a debug
build). -/
def target_transfer (probe : Probe) (address : Nat) (data : Option (List Nat))
    (len_bits : Nat) (avail : List Nat) : Except Err (List Nat) × List Nat :=
  match probe.chain_params with
  | none => (.error .notSelected, [])
  | some params =>
    if 32 ≤ params.irlen then (.error .panic, [])
    else if (1 <<< params.irlen) - 1 < address then (.error .invalidInput, [])
    else
      let irbits := params.irpre + params.irlen + params.irpost
      if 32 < irbits then (.error .panic, [])
      else if params.irpre + params.irlen = 32 ∨ params.irpost = 32 then (.error .panic, [])
      else
        let ir := build_ir params address
        match shift_ir_run (u32_le_bytes ir) irbits with
        | (.error e, w) => (.error e, w)
        | (.ok _, wIR) =>
          let drbits := params.drpre + len_bits + params.drpost
          let request := target_dr_request params data len_bits
          match transfer_dr_run request drbits avail with
          | (.error e, wDR) => (.error e, wIR ++ wDR)
          | (.ok reply, wDR) =>
            if 8 * reply.length < params.drpre then (.error .panic, wIR ++ wDR)
            else
              let result := target_decode params reply len_bits
              match idle_run probe.idle_cycles with
              | .error e => (.error e, wIR ++ wDR)
              | .ok wI => (.ok result, wIR ++ wDR ++ wI)

/-- read_register (main.rs lines 379-381). -/
def read_register (probe : Probe) (address len : Nat) (avail : List Nat) :
    Except Err (List Nat) × List Nat :=
  target_transfer probe address none len avail

/-- write_register (main.rs lines 388-390). -/
def write_register (probe : Probe) (address : Nat) (data : List Nat) (len : Nat)
    (avail : List Nat) : Except Err (List Nat) × List Nat :=
  target_transfer probe address (some data) len avail

/-
  Theorems.
-/

/-- C6, counterexample: reset does not hold TMS high on every one of the 40
clocks and its payload is not five bytes of all-1 bits — the 40th clock
(bit 7 of the fifth byte 0x7f) has TMS low. -/
theorem reset_tms_all_ones_cex :
    (List.range 40).map (tms_bit reset_tms_data) ≠ List.replicate 40 true ∧
      tms_bit reset_tms_data 39 = false ∧ reset_tms_data ≠ List.replicate 5 0xff := by
  refine ⟨?_, rfl, ?_⟩ <;> decide

/-- C6, amended: reset emits exactly 40 TMS clocks through five 0x4b
commands (the non-capturing clock-TMS opcode, so no TDO data is read), with
TMS high on the first 39 clocks and low on the 40th, the clock that steps
from Test-Logic-Reset into Run-Test/Idle. -/
theorem reset_tms_spec :
    reset = .ok ([0x4b, 0x07, 0xff] ++ [0x4b, 0x07, 0xff] ++ [0x4b, 0x07, 0xff] ++
        [0x4b, 0x07, 0xff] ++ [0x4b, 0x07, 0x7f]) ∧
      (List.range 40).map (tms_bit reset_tms_data) = List.replicate 39 true ++ [false] := by
  exact ⟨rfl, by decide⟩

/-- C10: a captured IR byte stream whose first byte is 0x01 passes the
boundary check (low two accumulator bits 0b01) with accumulator exactly 1;
clearing bit 0 leaves 0, trailing_zeros yields 32, and the 32-bit shift by
32 (and the subtraction from the 8-valued bit counter) overflows, so the
scan of a one-TAP chain ends in the panic branch instead of a TapDescriptor
list or a recoverable error. -/
theorem scan_ir_panic_reachable :
    (pullByte [0x01] 0 0).2.1 &&& 3 = 1 ∧
      trailingZeros32 ((pullByte [0x01] 0 0).2.1 &&& 0xfffffffe) = 32 ∧
      scan ([0xcb, 0x30, 0x60, 0x07] ++ List.replicate 28 0xff) [0x01] = .error .panic := by
  exact ⟨rfl, by decide, rfl⟩

/-- C5, counterexample: for a 2-bit capturing transfer the code waits for 2
reply bytes, not full_bytes + 1 = 1 as the claim computes (the trailing
bits produce one byte from the 0x3b bit command and one from the 0x6b TMS
command). -/
theorem tranfer_tdi_expect_cex : tranfer_tdi_expect 2 ≠ (2 - 1) / 8 + 1 := by
  decide

/-- C5, amended: for every bit count n > 0 the capturing transfer reads
back full_bytes + 1 bytes when exactly one bit remains after the bulk
segment (n ≡ 1 mod 8) and full_bytes + 2 bytes otherwise, where
full_bytes = (n-1)/8 is the number of whole bytes sent in the bulk
segment; a read delivering fewer bytes than that within the timeout fails
with a timeout error, and one delivering more fails with a data error. -/
theorem tranfer_tdi_expect_spec (bits : Nat) (h : 0 < bits) :
    tranfer_tdi_expect bits = (bits - 1) / 8 + (if bits % 8 = 1 then 1 else 2) ∧
      ∀ avail : List Nat,
        (avail.length < tranfer_tdi_expect bits →
          read_response avail (tranfer_tdi_expect bits) = .error .timedOut) ∧
        (tranfer_tdi_expect bits < avail.length →
          read_response avail (tranfer_tdi_expect bits) = .error .invalidData) ∧
        (avail.length = tranfer_tdi_expect bits →
          read_response avail (tranfer_tdi_expect bits) = .ok avail) := by
  constructor
  · show (bits - 1) / 8 + 1 + (if 1 < bits - (bits - 1) / 8 * 8 then 1 else 0) = _
    rcases Nat.lt_or_ge (bits - (bits - 1) / 8 * 8) 2 with hlt | hge
    · rw [if_neg (by omega), if_pos (by omega)]
    · rw [if_pos (by omega), if_neg (by omega)]
  · intro avail
    refine ⟨fun hlt => ?_, fun hgt => ?_, fun heq => ?_⟩
    · simp [read_response, hlt]
    · simp [read_response, Nat.not_lt.mpr (Nat.le_of_lt hgt), hgt]
    · simp [read_response, heq]

/-- C5 witness: the amended statement at bits = 11 with a 3-byte reply. -/
theorem tranfer_tdi_expect_spec_witness :
    tranfer_tdi_expect 11 = (11 - 1) / 8 + (if 11 % 8 = 1 then 1 else 2) ∧
      read_response [0, 0, 0] (tranfer_tdi_expect 11) = .ok [0, 0, 0] := by
  refine ⟨(tranfer_tdi_expect_spec 11 (by decide)).1, ?_⟩
  exact (((tranfer_tdi_expect_spec 11 (by decide)).2 [0, 0, 0]).2.2 (by decide))

lemma selectLoop_append (xs ys : List JtagChainItem) (idcode : Nat) (params : ChainParams)
    (found : Bool) :
    selectLoop (xs ++ ys) idcode params found =
      selectLoop ys idcode (selectLoop xs idcode params found).1
        (selectLoop xs idcode params found).2 := by
  induction xs generalizing params found with
  | nil => rfl
  | cons x xs ih =>
    simp only [List.cons_append, selectLoop]
    split
    · exact ih _ _
    · split
      · exact ih _ _
      · exact ih _ _

lemma selectLoop_no_match_false (xs : List JtagChainItem) (idcode : Nat)
    (params : ChainParams) (h : ∀ u ∈ xs, u.idcode ≠ idcode) :
    selectLoop xs idcode params false =
      ({ params with irpre := params.irpre + sumIr xs, drpre := params.drpre + xs.length },
        false) := by
  induction xs generalizing params with
  | nil =>
    cases params
    simp [selectLoop, sumIr]
  | cons x xs ih =>
    have hx : x.idcode ≠ idcode := h x (List.mem_cons_self x xs)
    simp only [selectLoop, if_neg hx, if_neg (Bool.false_ne_true)]
    rw [ih _ fun u hu => h u (List.mem_cons_of_mem x hu)]
    cases params
    simp [sumIr]
    omega

lemma selectLoop_no_match_true (xs : List JtagChainItem) (idcode : Nat)
    (params : ChainParams) (h : ∀ u ∈ xs, u.idcode ≠ idcode) :
    selectLoop xs idcode params true =
      ({ params with irpost := params.irpost + sumIr xs, drpost := params.drpost + xs.length },
        true) := by
  induction xs generalizing params with
  | nil =>
    cases params
    simp [selectLoop, sumIr]
  | cons x xs ih =>
    have hx : x.idcode ≠ idcode := h x (List.mem_cons_self x xs)
    simp only [selectLoop, if_neg hx, if_pos rfl]
    rw [ih _ fun u hu => h u (List.mem_cons_of_mem x hu)]
    cases params
    simp [sumIr]
    omega

/-- Shared characterization: on a chain holding exactly one TAP with the
requested idcode, select_target returns the parameters read off from the
position of that TAP. -/
lemma select_target_of_unique (pre post : List JtagChainItem) (t : JtagChainItem)
    (idcode : Nat) (ht : t.idcode = idcode) (hpre : ∀ u ∈ pre, u.idcode ≠ idcode)
    (hpost : ∀ u ∈ post, u.idcode ≠ idcode) :
    select_target (pre ++ t :: post) idcode =
      .ok ⟨sumIr pre, sumIr post, pre.length, post.length, t.irlen⟩ := by
  unfold select_target
  rw [selectLoop_append, selectLoop_no_match_false pre idcode _ hpre]
  simp only [selectLoop, if_pos ht]
  rw [selectLoop_no_match_true post idcode _ hpost]
  simp

/-- C1, amended ("occurs at position p" strengthened to "occurs exactly
once, at position p"; with several matching TAPs the code overwrites
ir_length with each later match and counts intervening TAPs as following,
so the claimed formulas fail — see the counterexample): on a chain with no
matching TAP, select_target fails with the not-found error; on a chain
where the requested idcode occurs exactly once, at position p (as the TAP t
with p TAPs before it and k - p - 1 after it), it succeeds with ir_pre the
sum of the p preceding ir_lengths, dr_pre = p, ir_post the sum of the
k - p - 1 following ir_lengths, dr_post = k - p - 1, and ir_length that of
the matched TAP. -/
theorem select_target_unique_position (taps : List JtagChainItem) (idcode : Nat) :
    ((∀ u ∈ taps, u.idcode ≠ idcode) → select_target taps idcode = .error .notFound) ∧
      ∀ pre t post, taps = pre ++ t :: post → t.idcode = idcode →
        (∀ u ∈ pre, u.idcode ≠ idcode) → (∀ u ∈ post, u.idcode ≠ idcode) →
        select_target taps idcode =
          .ok ⟨sumIr pre, sumIr post, pre.length, post.length, t.irlen⟩ := by
  constructor
  · intro h
    unfold select_target
    rw [selectLoop_no_match_false taps idcode _ h]
  · intro pre t post hsplit ht hpre hpost
    rw [hsplit]
    exact select_target_of_unique pre post t idcode ht hpre hpost

/-- C1 witness: a two-TAP chain with the target in second position
(p = 1 of k = 2). -/
theorem select_target_unique_position_witness :
    select_target [⟨1, 5⟩, ⟨2, 5⟩] 2 = .ok ⟨5, 0, 1, 0, 5⟩ ∧
      select_target [⟨1, 5⟩, ⟨2, 5⟩] 9 = .error .notFound := by
  constructor
  · exact (select_target_unique_position [⟨1, 5⟩, ⟨2, 5⟩] 2).2 [⟨1, 5⟩] ⟨2, 5⟩ [] rfl rfl
      (by decide) (by decide)
  · exact (select_target_unique_position [⟨1, 5⟩, ⟨2, 5⟩] 9).1 (by decide)

/-- C1, counterexample: on the chain [{idcode 5, irlen 3}, {idcode 5,
irlen 4}] with requested idcode 5 occurring at position p = 0, the claim
predicts parameters (ir_pre 0, ir_post 4, dr_pre 0, dr_post 1, ir_length
3), but the code returns (0, 0, 0, 0, 4): the second match overwrote
ir_length and was not counted as a following TAP. -/
theorem select_target_claim_cex :
    select_target [⟨5, 3⟩, ⟨5, 4⟩] 5 = .ok ⟨0, 0, 0, 0, 4⟩ ∧
      (⟨0, 0, 0, 0, 4⟩ : ChainParams) ≠ ⟨0, 4, 0, 1, 3⟩ := by
  exact ⟨rfl, by decide⟩

/-- C2, counterexample: after select_target on the chain [{idcode 9,
irlen 3}, {idcode 9, irlen 4}] (both TAPs carry the requested idcode 9) the
stored parameters give ir_pre + ir_length + ir_post = 4 while the chain's
IR lengths sum to 7, and dr_pre + dr_post + 1 = 1 while the chain has 2
TAPs: both claimed invariants fail. -/
theorem chain_params_invariant_cex :
    select_target [⟨9, 3⟩, ⟨9, 4⟩] 9 = .ok ⟨0, 0, 0, 0, 4⟩ ∧
      sumIr [⟨9, 3⟩, ⟨9, 4⟩] = 7 ∧ ¬(0 + 4 + 0 = 7 ∧ 0 + 0 + 1 = 2) := by
  exact ⟨rfl, rfl, by decide⟩

/-- C2, amended (restricted to chains in which exactly one TAP carries the
requested idcode; with m > 1 matching TAPs the code drops the earlier
matches from both sums, see the counterexample): after a successful
select_target on such a chain, the stored parameters satisfy
ir_pre + ir_length + ir_post = sum of all TAPs' IR lengths and
dr_pre + dr_post + 1 = number of TAPs, and at the probe level the whole
ChainParams value is replaced at once, independent of what was stored
before. -/
theorem chain_params_invariant_unique (taps pre post : List JtagChainItem)
    (t : JtagChainItem) (idcode : Nat) (probe : Probe) (hsplit : taps = pre ++ t :: post)
    (ht : t.idcode = idcode) (hpre : ∀ u ∈ pre, u.idcode ≠ idcode)
    (hpost : ∀ u ∈ post, u.idcode ≠ idcode) :
    ∀ p, select_target taps idcode = .ok p →
      p.irpre + p.irlen + p.irpost = sumIr taps ∧
        p.drpre + p.drpost + 1 = taps.length ∧
        select_target_probe probe taps idcode = .ok ⟨some p, probe.idle_cycles⟩ := by
  intro p hp
  have heq := select_target_of_unique pre post t idcode ht hpre hpost
  rw [hsplit] at hp
  rw [heq] at hp
  cases hp
  refine ⟨?_, ?_, ?_⟩
  · simp [hsplit, sumIr]
    omega
  · simp [hsplit]
    omega
  · unfold select_target_probe
    rw [hsplit, heq]

/-- C2 witness: the amended statement on the chain [{idcode 7, irlen 4},
{idcode 8, irlen 6}] selecting idcode 8. -/
theorem chain_params_invariant_unique_witness :
    (⟨4, 0, 1, 0, 6⟩ : ChainParams).irpre + (⟨4, 0, 1, 0, 6⟩ : ChainParams).irlen +
        (⟨4, 0, 1, 0, 6⟩ : ChainParams).irpost = sumIr [⟨7, 4⟩, ⟨8, 6⟩] ∧
      (⟨4, 0, 1, 0, 6⟩ : ChainParams).drpre + (⟨4, 0, 1, 0, 6⟩ : ChainParams).drpost + 1 =
        ([⟨7, 4⟩, ⟨8, 6⟩] : List JtagChainItem).length ∧
      select_target_probe ⟨none, 3⟩ [⟨7, 4⟩, ⟨8, 6⟩] 8 = .ok ⟨some ⟨4, 0, 1, 0, 6⟩, 3⟩ := by
  exact chain_params_invariant_unique [⟨7, 4⟩, ⟨8, 6⟩] [⟨7, 4⟩] [] ⟨8, 6⟩ 8 ⟨none, 3⟩ rfl rfl
    (by decide) (by decide) ⟨4, 0, 1, 0, 6⟩ rfl

lemma scanIdcodesFrom_eq (r : List Nat) :
    ∀ fuel i, scanIdcodesFrom r i fuel =
      (((List.range fuel).map (fun j => idcodeAt r (i + j))).takeWhile
        (fun c => c != 0xffffffff)).map (fun c => ⟨c, 0⟩) := by
  intro fuel
  induction fuel with
  | zero => intro i; rfl
  | succ fuel ih =>
    intro i
    rw [List.range_succ_eq_map]
    simp only [List.map_cons, List.map_map, List.takeWhile_cons]
    by_cases h : idcodeAt r (i + 0) = 0xffffffff
    · simp only [scanIdcodesFrom, Nat.add_zero] at *
      rw [if_neg (by simpa using h)]
      simp [h]
    · simp only [scanIdcodesFrom, Nat.add_zero] at *
      rw [if_pos (by simpa using h)]
      have hfun : (fun j => idcodeAt r (i + Nat.succ j)) = fun j => idcodeAt r ((i + 1) + j) := by
        funext j
        congr 1
        omega
      simp only [Function.comp_def, hfun, bne_iff_ne, ne_eq, h, not_false_eq_true, if_true,
        List.map_cons]
      rw [ih (i + 1)]

/-- C3: the IDCODE pass shifts an all-ones DR payload of
max_device_count (8) times 32 bits through transfer_dr, interprets the
captured bytes as consecutive little-endian 32-bit words in chain order,
creates one TapDescriptor per word until (exclusive) the first word equal
to 0xffffffff, and a chain whose very first word is 0xffffffff yields the
empty list without error. -/
theorem scan_idcode_pass_spec :
    (∀ b ∈ scan_dr_cmd, b = 0xff) ∧ 8 * scan_dr_cmd.length = max_device_count * 32 ∧
      (∀ r, scanIdcodes r =
        (((List.range max_device_count).map (idcodeAt r)).takeWhile
          (fun c => c != 0xffffffff)).map (fun c => ⟨c, 0⟩)) ∧
      ∀ r ir_reply, idcodeAt r 0 = 0xffffffff → scan r ir_reply = .ok [] := by
  refine ⟨by decide, by decide, fun r => ?_, fun r ir_reply h => ?_⟩
  · rw [scanIdcodes, scanIdcodesFrom_eq r max_device_count 0]
    simp
  · have h0 : scanIdcodes r = [] := by
      rw [scanIdcodes]
      show scanIdcodesFrom r 0 8 = []
      unfold scanIdcodesFrom
      simp [h]
    rw [scan, h0]
    rfl

/-- C3 witness: a fully empty chain (all-ones capture) scans to the empty
list without error. -/
theorem scan_idcode_pass_spec_witness :
    scan (List.replicate 32 0xff) [] = .ok [] :=
  scan_idcode_pass_spec.2.2.2 (List.replicate 32 0xff) [] (by decide)

lemma tz32Aux_spec : ∀ fuel x, 0 < x → x < 2 ^ fuel →
    2 ^ tz32Aux fuel x ∣ x ∧ ¬2 ^ (tz32Aux fuel x + 1) ∣ x := by
  intro fuel
  induction fuel with
  | zero =>
    intro x hx hlt
    simp at hlt
    omega
  | succ fuel ih =>
    intro x hx hlt
    simp only [tz32Aux]
    by_cases h : x % 2 = 1
    · rw [if_pos h]
      refine ⟨Nat.one_dvd x, fun hd => ?_⟩
      rcases hd with ⟨c, hc⟩
      omega
    · rw [if_neg h]
      have hx2 : 0 < x / 2 := by omega
      have hpow : 2 ^ (fuel + 1) = 2 ^ fuel * 2 := by
        rw [Nat.pow_succ]
      have hlt2 : x / 2 < 2 ^ fuel := by omega
      obtain ⟨hd, hnd⟩ := ih (x / 2) hx2 hlt2
      rcases hd with ⟨c, hc⟩
      constructor
      · refine ⟨c, ?_⟩
        have hp : 2 ^ (1 + tz32Aux fuel (x / 2)) = 2 * 2 ^ tz32Aux fuel (x / 2) := by
          rw [pow_add, pow_one]
        rw [hp, mul_assoc]
        omega
      · rintro ⟨c2, hc2⟩
        apply hnd
        have h2 : 2 ^ (1 + tz32Aux fuel (x / 2) + 1) =
            2 * 2 ^ (tz32Aux fuel (x / 2) + 1) := by
          rw [show 1 + tz32Aux fuel (x / 2) + 1 = (tz32Aux fuel (x / 2) + 1) + 1 by omega,
            Nat.pow_succ]
          ring
        rw [h2, mul_assoc] at hc2
        refine ⟨c2, ?_⟩
        omega

lemma trailingZeros32_spec (x : Nat) (hx : 0 < x) (hlt : x < 2 ^ 32) :
    2 ^ trailingZeros32 x ∣ x ∧ ¬2 ^ (trailingZeros32 x + 1) ∣ x :=
  tz32Aux_spec 32 x hx hlt

lemma trailingZeros32_lt_32 (x : Nat) (hx : 0 < x) (hlt : x < 2 ^ 32) :
    trailingZeros32 x < 32 := by
  obtain ⟨hd, _⟩ := trailingZeros32_spec x hx hlt
  have h1 : 2 ^ trailingZeros32 x ≤ x := Nat.le_of_dvd hx hd
  have h2 : 2 ^ trailingZeros32 x < 2 ^ 32 := lt_of_le_of_lt h1 hlt
  exact (Nat.pow_lt_pow_iff_right (by norm_num)).mp h2

/-- Clearing bit 0 of an odd u32 value subtracts one. -/
lemma land_fffffffe (x : Nat) (hlt : x < 2 ^ 32) (hodd : x % 2 = 1) :
    x &&& 0xfffffffe = x - 1 := by
  apply Nat.eq_of_testBit_eq
  intro i
  rw [Nat.testBit_land]
  match i with
  | 0 =>
    have h1 : Nat.testBit 0xfffffffe 0 = false := by decide
    have h2 : Nat.testBit (x - 1) 0 = false := by
      simp [Nat.testBit_zero]
      omega
    simp [h1, h2]
  | i + 1 =>
    by_cases hi : i + 1 < 32
    · have h1 : Nat.testBit 0xfffffffe (i + 1) = true := by
        have hle : i ≤ 30 := by omega
        interval_cases i <;> decide
      rw [h1, Bool.and_true, Nat.testBit_succ, Nat.testBit_succ]
      congr 1
      omega
    · have hbig : 2 ^ 32 ≤ 2 ^ (i + 1) := Nat.pow_le_pow_right (by norm_num) (by omega)
      have h1 : Nat.testBit x (i + 1) = false :=
        Nat.testBit_lt_two_pow (lt_of_lt_of_le hlt hbig)
      have h2 : Nat.testBit (x - 1) (i + 1) = false :=
        Nat.testBit_lt_two_pow (lt_of_lt_of_le (by omega) hbig)
      simp [h1, h2]

lemma land_three_odd (x : Nat) (h : x &&& 3 = 1) : x % 2 = 1 := by
  have h1 : x &&& 1 = 1 := by
    have := congrArg (fun z => z &&& 1) h
    simpa [Nat.land_assoc] using this
  rwa [Nat.and_one_is_mod] at h1

/-- C4, amended (the boundary condition is strengthened from "bit 0 of the
accumulator is 1" to "the low two bits of the accumulator are 0b01", the
check the code performs — see the counterexample — and the non-panicking
success path additionally needs the accumulator different from 1, see the
C10 theorem): after the per-TAP byte refill producing accumulator ir1 with
irbits1 valid bits and r1 unconsumed bytes, the step fails with the
InvalidData error — and the scan then returns that error with no partial
results — exactly when ir1 &&& 3 is not 0b01; otherwise, when the
accumulator is not exactly 1 and its trailing-zero count fits the bit
counter, clearing bit 0 subtracts 1, the TAP's ir_length is the number of
trailing zero bits of the cleared accumulator (the exact power of two
dividing it), and the step hands the accumulator shifted right by
ir_length and the bit counter reduced by ir_length to the next TAP. -/
theorem scanIrStep_boundary_spec (r r1 : List Nat) (ir irbits ir1 irbits1 : Nat)
    (hpull : pullByte r ir irbits = (r1, ir1, irbits1)) (hlt : ir1 < 2 ^ 32) :
    (scanIrStep r ir irbits = .err .invalidData ↔ ¬ir1 &&& 3 = 1) ∧
      (∀ t ts, ¬ir1 &&& 3 = 1 →
        scanIrLoop (t :: ts) r ir irbits = .error .invalidData) ∧
      (ir1 &&& 3 = 1 → ir1 ≠ 1 → trailingZeros32 (ir1 - 1) ≤ irbits1 →
        ir1 &&& 0xfffffffe = ir1 - 1 ∧
          scanIrStep r ir irbits = .next (trailingZeros32 (ir1 - 1))
            ((ir1 - 1) >>> trailingZeros32 (ir1 - 1))
            (irbits1 - trailingZeros32 (ir1 - 1)) r1 ∧
          2 ^ trailingZeros32 (ir1 - 1) ∣ ir1 - 1 ∧
          ¬2 ^ (trailingZeros32 (ir1 - 1) + 1) ∣ ir1 - 1) := by
  have hstep : ∀ P : IrStep → Prop,
      P (scanIrStep r ir irbits) ↔ P (
        if ir1 &&& 3 = 1 then
          let ir2 := ir1 &&& 0xfffffffe
          let irlen := trailingZeros32 ir2
          if 32 ≤ irlen then .err .panic
          else if irbits1 < irlen then .err .panic
          else .next irlen (ir2 >>> irlen) (irbits1 - irlen) r1
        else .err .invalidData) := by
    intro P
    rw [scanIrStep, hpull]
  constructor
  · rw [hstep (fun z => z = .err .invalidData)]
    by_cases h : ir1 &&& 3 = 1
    · simp only [if_pos h]
      split
      · simp [h]
      · split <;> simp [h]
    · simp [if_neg h, h]
  constructor
  · intro t ts h
    have he : scanIrStep r ir irbits = .err .invalidData := by
      rw [hstep (fun z => z = .err .invalidData), if_neg h]
    simp [scanIrLoop, he]
  · intro h hne htzle
    have hodd : ir1 % 2 = 1 := land_three_odd ir1 h
    have hclear : ir1 &&& 0xfffffffe = ir1 - 1 := land_fffffffe ir1 hlt hodd
    have hpos : 0 < ir1 - 1 := by
      have h4 : ¬ir1 = 1 := hne
      omega
    have htz := trailingZeros32_spec (ir1 - 1) hpos (by omega)
    have htzlt : trailingZeros32 (ir1 - 1) < 32 := trailingZeros32_lt_32 (ir1 - 1) hpos (by omega)
    refine ⟨hclear, ?_, htz.1, htz.2⟩
    rw [hstep (fun z => z = _), if_pos h]
    simp only [hclear]
    rw [if_neg (by omega), if_neg (by omega)]

/-- C4 witness: the amended statement at a step whose refilled accumulator
is 5 = 0b101 (boundary accepted, ir_length 2, accumulator 1 and six valid
bits handed to the next TAP). -/
theorem scanIrStep_boundary_spec_witness :
    scanIrStep [0x05] 0 0 = .next 2 1 6 [] ∧ (5 : Nat) &&& 0xfffffffe = 4 ∧
      (2 : Nat) ^ 2 ∣ 4 ∧ ¬(2 : Nat) ^ 3 ∣ 4 := by
  have h := (scanIrStep_boundary_spec [0x05] [] 0 0 5 8 rfl (by decide)).2.2 (by decide)
    (by decide) (by decide)
  exact ⟨h.2.1, h.1, h.2.2.1, h.2.2.2⟩

/-- C4, counterexample: the captured IR byte 0x07 refills the accumulator
to 7, whose bit 0 is 1, yet the scan of a one-TAP chain fails with the
InvalidData error — the code requires the low two bits to be 0b01, not
just bit 0 to be 1. -/
theorem ir_length_pass_bit0_cex :
    Nat.testBit ((pullByte [0x07] 0 0).2.1) 0 = true ∧
      scan ([0x3d, 0x56, 0x00, 0x10] ++ List.replicate 28 0xff) [0x07] =
        .error .invalidData := by
  exact ⟨rfl, rfl⟩

lemma lor_one_and_one (z : Nat) : (1 ||| z) &&& 1 = 1 := by
  rw [Nat.and_one_is_mod]
  have h : (1 ||| z).testBit 0 = true := by
    rw [Nat.testBit_lor]
    simp
  simp only [Nat.testBit_zero, decide_eq_true_eq] at h
  exact h

/-- C7: for every bit count n > 0 (with a long-enough buffer), shift_tdi
emits a single bulk 0x19 clock-bytes command carrying the first
floor((n-1)/8) data bytes verbatim when that count is positive (asserting
it does not exceed 65536 bytes — beyond that the assertion fails), then a
0x1b clock-(N-1)-bits command when more than one bit remains, and always a
final 0x4b TMS+TDI command for the last bit whose TMS data bit is 1. -/
theorem shift_tdi_structure (data : List Nat) (bits : Nat) (h1 : 0 < bits)
    (h2 : (bits + 7) / 8 ≤ data.length) :
    ((bits - 1) / 8 ≤ 65536 →
      shift_tdi data bits = .ok (
        (if 0 < (bits - 1) / 8 then
          0x19 :: (((bits - 1) / 8 - 1) % 256) :: (((bits - 1) / 8 - 1) / 256 % 256) ::
            data.take ((bits - 1) / 8)
        else []) ++
        (if 1 < bits - (bits - 1) / 8 * 8 then
          [0x1b, bits - (bits - 1) / 8 * 8 - 2, (data.drop ((bits - 1) / 8)).headD 0]
        else []) ++
        [0x4b, 0x00, 0x01 ||| ((((data.drop ((bits - 1) / 8)).headD 0 >>>
          (bits - (bits - 1) / 8 * 8 - 1)) &&& 1) <<< 7)])) ∧
      (0x01 ||| ((((data.drop ((bits - 1) / 8)).headD 0 >>>
        (bits - (bits - 1) / 8 * 8 - 1)) &&& 1) <<< 7)) &&& 1 = 1 ∧
      (65536 < (bits - 1) / 8 → shift_tdi data bits = .error .panic) := by
  refine ⟨fun hfb => ?_, lor_one_and_one _, fun hfb => ?_⟩
  · rw [shift_tdi, if_neg (by omega), if_neg (by omega), if_neg (by omega)]
  · rw [shift_tdi, if_neg (by omega), if_neg (by omega), if_pos hfb]

/-- C7 witness: a 13-bit shift of the bytes AA 1F — one bulk byte, a
4-bit 0x1b command, and the final-bit 0x4b command with TMS data bit 1. -/
theorem shift_tdi_structure_witness :
    shift_tdi [0xAA, 0x1F] 13 = .ok [0x19, 0, 0, 0xAA, 0x1b, 3, 0x1F, 0x4b, 0, 129] ∧
      (129 : Nat) &&& 1 = 1 := by
  have h := shift_tdi_structure [0xAA, 0x1F] 13 (by decide) (by decide)
  exact ⟨h.1 (by decide), h.2.1⟩

/-- C9: read_register and write_register fail with the "target is not
selected" error when no select_target has succeeded, and, with a selected
target, fail with the invalid-input error when the address exceeds
2 ^ ir_length - 1; in both cases no engine command bytes are written. -/
theorem register_access_guards (probe : Probe) (params : ChainParams) (address len : Nat)
    (d avail : List Nat) :
    (probe.chain_params = none →
      read_register probe address len avail = (.error .notSelected, []) ∧
        write_register probe address d len avail = (.error .notSelected, [])) ∧
      (probe.chain_params = some params → params.irlen < 32 →
        2 ^ params.irlen - 1 < address →
        read_register probe address len avail = (.error .invalidInput, []) ∧
          write_register probe address d len avail = (.error .invalidInput, [])) := by
  constructor
  · intro h
    constructor <;> simp [read_register, write_register, target_transfer, h]
  · intro h hirlen haddr
    have hsh : (1 <<< params.irlen) - 1 < address := by
      rw [Nat.shiftLeft_eq, one_mul]
      exact haddr
    have h32 : ¬32 ≤ params.irlen := Nat.not_le.mpr hirlen
    constructor <;>
      · simp only [read_register, write_register, target_transfer, h]
        rw [if_neg h32, if_pos hsh]

/-- C9 witness: the theorem at an unselected probe and at a selected probe
with ir_length 5 and address 999 > 31. -/
theorem register_access_guards_witness :
    read_register ⟨none, 0⟩ 1 32 [] = (.error .notSelected, []) ∧
      read_register ⟨some ⟨0, 0, 0, 0, 5⟩, 0⟩ 999 32 [] = (.error .invalidInput, []) := by
  refine ⟨((register_access_guards ⟨none, 0⟩ ⟨0, 0, 0, 0, 0⟩ 1 32 [] []).1 rfl).1, ?_⟩
  exact ((register_access_guards ⟨some ⟨0, 0, 0, 0, 5⟩, 0⟩ ⟨0, 0, 0, 0, 5⟩ 999 32 [] []).2
    rfl (by decide) (by decide)).1

lemma bytesToBits_cons (b : Nat) (bs : List Nat) :
    bytesToBits (b :: bs) = byteToBits b ++ bytesToBits bs := by
  simp [bytesToBits]

lemma byteToBits_bitsToByte (b0 b1 b2 b3 b4 b5 b6 b7 : Bool) :
    byteToBits (bitsToByte [b0, b1, b2, b3, b4, b5, b6, b7]) =
      [b0, b1, b2, b3, b4, b5, b6, b7] := by
  revert b0 b1 b2 b3 b4 b5 b6 b7
  decide

/-- Unpacking the bytes packed from a bit list recovers the bit list,
followed by the zero padding of the trailing byte. -/
theorem bytesToBits_bitsToBytes : ∀ l : List Bool,
    bytesToBits (bitsToBytes l) = l ++ List.replicate ((8 - l.length % 8) % 8) false
  | [] => by decide
  | [b0] => by revert b0; decide
  | [b0, b1] => by revert b0 b1; decide
  | [b0, b1, b2] => by revert b0 b1 b2; decide
  | [b0, b1, b2, b3] => by revert b0 b1 b2 b3; decide
  | [b0, b1, b2, b3, b4] => by revert b0 b1 b2 b3 b4; decide
  | [b0, b1, b2, b3, b4, b5] => by revert b0 b1 b2 b3 b4 b5; decide
  | [b0, b1, b2, b3, b4, b5, b6] => by revert b0 b1 b2 b3 b4 b5 b6; decide
  | b0 :: b1 :: b2 :: b3 :: b4 :: b5 :: b6 :: b7 :: rest => by
    have ih := bytesToBits_bitsToBytes rest
    show bytesToBits (bitsToByte [b0, b1, b2, b3, b4, b5, b6, b7] :: bitsToBytes rest) = _
    rw [bytesToBits_cons, byteToBits_bitsToByte, ih]
    have hm : (b0 :: b1 :: b2 :: b3 :: b4 :: b5 :: b6 :: b7 :: rest).length % 8 =
        rest.length % 8 := by
      simp only [List.length_cons]
      omega
    rw [hm]
    simp

lemma bytesToBits_length (bs : List Nat) : (bytesToBits bs).length = 8 * bs.length := by
  induction bs with
  | nil => rfl
  | cons b bs ih =>
    rw [bytesToBits_cons, List.length_append, ih]
    simp [byteToBits]
    omega

lemma bytesToBits_replicate_zero (n : Nat) :
    bytesToBits (List.replicate n 0) = List.replicate (8 * n) false := by
  induction n with
  | zero => rfl
  | succ n ih =>
    rw [List.replicate_succ, bytesToBits_cons, ih,
      show 8 * (n + 1) = 8 + 8 * n by ring, List.replicate_add]
    congr 1

lemma build_ir_low (p : ChainParams) (address i : Nat) (h : i < p.irpre) :
    (build_ir p address).testBit i = true := by
  have hA : ((1 <<< p.irpre) - 1 : Nat).testBit i = true := by
    rw [Nat.shiftLeft_eq, one_mul]
    simp [Nat.testBit_two_pow_sub_one, h]
  simp [build_ir, Nat.testBit_or, hA]

lemma build_ir_mid (p : ChainParams) (address i : Nat) (h : i < p.irlen) :
    (build_ir p address).testBit (p.irpre + i) = address.testBit i := by
  have hA : ((1 <<< p.irpre) - 1 : Nat).testBit (p.irpre + i) = false := by
    rw [Nat.shiftLeft_eq, one_mul]
    simp [Nat.testBit_two_pow_sub_one]
  have hB : (address <<< p.irpre).testBit (p.irpre + i) = address.testBit i := by
    rw [Nat.testBit_shiftLeft]
    simp [Nat.le_add_right]
  have hC : ((((1 <<< p.irpost) - 1) <<< (p.irpre + p.irlen)) : Nat).testBit (p.irpre + i) =
      false := by
    rw [Nat.testBit_shiftLeft]
    have hge : ¬p.irpre + i ≥ p.irpre + p.irlen := by omega
    simp [hge]
  simp [build_ir, Nat.testBit_or, hA, hB, hC]

lemma build_ir_high (p : ChainParams) (address i : Nat) (h : i < p.irpost) :
    (build_ir p address).testBit (p.irpre + p.irlen + i) = true := by
  have hC : ((((1 <<< p.irpost) - 1) <<< (p.irpre + p.irlen)) : Nat).testBit
      (p.irpre + p.irlen + i) = true := by
    rw [Nat.testBit_shiftLeft, Nat.shiftLeft_eq, one_mul]
    simp [Nat.testBit_two_pow_sub_one, Nat.le_add_right, h]
  simp [build_ir, Nat.testBit_or, hC]

lemma build_ir_top (p : ChainParams) (address i : Nat) (haddr : address < 2 ^ p.irlen)
    (h : p.irpre + p.irlen + p.irpost ≤ i) :
    (build_ir p address).testBit i = false := by
  have hA : ((1 <<< p.irpre) - 1 : Nat).testBit i = false := by
    rw [Nat.shiftLeft_eq, one_mul]
    simp [Nat.testBit_two_pow_sub_one]
    omega
  have hB : (address <<< p.irpre).testBit i = false := by
    rw [Nat.testBit_shiftLeft]
    by_cases hge : i ≥ p.irpre
    · have hbit : address.testBit (i - p.irpre) = false :=
        Nat.testBit_lt_two_pow
          (lt_of_lt_of_le haddr (Nat.pow_le_pow_right (by norm_num) (by omega)))
      simp [hbit]
    · simp [hge]
  have hC : ((((1 <<< p.irpost) - 1) <<< (p.irpre + p.irlen)) : Nat).testBit i = false := by
    rw [Nat.testBit_shiftLeft, Nat.shiftLeft_eq, one_mul]
    by_cases hge : i ≥ p.irpre + p.irlen
    · simp [Nat.testBit_two_pow_sub_one]
      omega
    · simp [hge]
  simp [build_ir, Nat.testBit_or, hA, hB, hC]

/-- C8, amended ("truncated/zero-extended to exactly len_bits" weakened to
"truncated to exactly len_bits, the caller supplying at least len_bits
bits": shorter write data is not zero-extended — the request is then
under-sized and the transfer layer's buffer-length assertion fails, see the
counterexample): with a target selected as p and an in-range address, the
IR value has its low ir_pre bits all 1, the address in the next ir_length
bits and ir_post 1-bits above them, with nothing beyond; the DR request is
dr_pre zero bits, then exactly len_bits data bits, then dr_post zero bits
(plus the zero padding of the trailing byte; all zeros of that total width
for a read); the reply decoding discards the low dr_pre bits and returns
exactly the next len_bits bits, discarding the rest. -/
theorem target_transfer_spec (p : ChainParams) (address : Nat) (d reply : List Nat)
    (len_bits : Nat) (haddr : address < 2 ^ p.irlen) (hd : len_bits ≤ 8 * d.length)
    (hr : p.drpre + len_bits ≤ 8 * reply.length) :
    ((∀ i, i < p.irpre → (build_ir p address).testBit i = true) ∧
      (∀ i, i < p.irlen → (build_ir p address).testBit (p.irpre + i) = address.testBit i) ∧
      (∀ i, i < p.irpost → (build_ir p address).testBit (p.irpre + p.irlen + i) = true) ∧
      (∀ i, p.irpre + p.irlen + p.irpost ≤ i → (build_ir p address).testBit i = false)) ∧
      bytesToBits (target_dr_request p (some d) len_bits) =
        List.replicate p.drpre false ++ (bytesToBits d).take len_bits ++
          List.replicate (p.drpost + (8 - (p.drpre + len_bits + p.drpost) % 8) % 8) false ∧
      ((bytesToBits d).take len_bits).length = len_bits ∧
      target_dr_request p none len_bits =
        List.replicate ((p.drpre + len_bits + p.drpost + 7) / 8) 0 ∧
      bytesToBits (target_decode p reply len_bits) =
        ((bytesToBits reply).drop p.drpre).take len_bits ++
          List.replicate ((8 - len_bits % 8) % 8) false ∧
      (((bytesToBits reply).drop p.drpre).take len_bits).length = len_bits := by
  have hlen_take : ((bytesToBits d).take len_bits).length = len_bits := by
    rw [List.length_take, bytesToBits_length]
    omega
  have hlen_dec : (((bytesToBits reply).drop p.drpre).take len_bits).length = len_bits := by
    rw [List.length_take, List.length_drop, bytesToBits_length]
    omega
  refine ⟨⟨fun i hi => build_ir_low p address i hi, fun i hi => build_ir_mid p address i hi,
    fun i hi => build_ir_high p address i hi,
    fun i hi => build_ir_top p address i haddr hi⟩, ?_, hlen_take, rfl, ?_, hlen_dec⟩
  · show bytesToBits (bitsToBytes (List.replicate p.drpre false ++
      (bytesToBits d).take len_bits ++ List.replicate p.drpost false)) = _
    rw [bytesToBits_bitsToBytes]
    have hL : (List.replicate p.drpre false ++ (bytesToBits d).take len_bits ++
        List.replicate p.drpost false).length = p.drpre + len_bits + p.drpost := by
      simp [hlen_take]
      omega
    rw [hL, List.replicate_add]
    simp [List.append_assoc]
  · show bytesToBits (bitsToBytes (((bytesToBits reply).drop p.drpre).take len_bits)) = _
    rw [bytesToBits_bitsToBytes, hlen_dec]

/-- C8 witness: the theorem at parameters (ir_pre 2, ir_post 1, dr_pre 1,
dr_post 1, ir_length 3), address 5, one write byte AB with len_bits 8, and
a two-byte reply CD 01. -/
theorem target_transfer_spec_witness :
    (build_ir ⟨2, 1, 1, 1, 3⟩ 5).testBit 0 = true ∧
      (build_ir ⟨2, 1, 1, 1, 3⟩ 5).testBit (2 + 1) = Nat.testBit 5 1 ∧
      (build_ir ⟨2, 1, 1, 1, 3⟩ 5).testBit 6 = false ∧
      bytesToBits (target_dr_request ⟨2, 1, 1, 1, 3⟩ (some [0xAB]) 8) =
        List.replicate 1 false ++ (bytesToBits [0xAB]).take 8 ++
          List.replicate (1 + (8 - (1 + 8 + 1) % 8) % 8) false ∧
      bytesToBits (target_decode ⟨2, 1, 1, 1, 3⟩ [0xCD, 0x01] 8) =
        ((bytesToBits [0xCD, 0x01]).drop 1).take 8 ++ List.replicate ((8 - 8 % 8) % 8) false := by
  have h := target_transfer_spec ⟨2, 1, 1, 1, 3⟩ 5 [0xAB] [0xCD, 0x01] 8 (by decide) (by decide)
    (by decide)
  exact ⟨h.1.1 0 (by decide), h.1.2.1 1 (by decide), h.1.2.2.2 6 (by decide), h.2.1, h.2.2.2.2.1⟩

/-- C8, counterexample: with trivial padding and a one-byte write datum AB
at len_bits 16, the built DR request holds only the 8 available data bits
and is not the claimed zero-extension of the datum to exactly 16 bits, and
the transfer then fails in the panic branch (the buffer-length assertion of
the capturing transfer) instead of transferring a zero-extended payload. -/
theorem target_transfer_request_cex :
    bytesToBits (target_dr_request ⟨0, 0, 0, 0, 5⟩ (some [0xAB]) 16) ≠
        List.replicate 0 false ++ ((bytesToBits [0xAB]).take 16 ++
          List.replicate (16 - (bytesToBits [0xAB]).length) false) ++ List.replicate 0 false ∧
      (target_transfer ⟨some ⟨0, 0, 0, 0, 5⟩, 0⟩ 1 (some [0xAB]) 16 []).1 = .error .panic := by
  exact ⟨by decide, rfl⟩

end Ftdi
